import Mathlib

/-!
Verification of the metrics-and-ranking core of the Binance trade analyzer.

The embedding models the two pandas-based engines:
  src/analysis/metrics.py  (calculate_roi, calculate_pnl, calculate_sharpe_ratio,
                            calculate_mdd, calculate_win_rate, calculate_metrics)
  src/analysis/ranking.py  (normalize_metrics, get_feature_importance, rank_accounts)

Modelling conventions:
* A trade table is a `List Trade`; pandas group-by-account aggregates become
  keyed functions `ℕ → _` evaluated at an account id.
* Exact rational arithmetic (`ℚ`) replaces float arithmetic; `ℝ` is used only
  where the source computes irrational values (Sharpe: `sqrt`, `(1+rf)^(1/365)`).
* A float NaN is modelled as `none : Option ℚ`.  In this code base NaN can
  arise only from the `0/0` division inside `calculate_mdd` (the running
  maximum is zero only when the cumulative product is zero, proved below in
  `runningMax_cumprod_zero`, so `±inf` from `x/0` with `x ≠ 0` cannot arise)
  and is removed by the final `fillna(0)` of `calculate_metrics`.
* `pandas.sort_values(by=k)` with the default kind argsorts ascending and, for
  `ascending=False`, reverses the resulting permutation.  numpy's default sort
  is plain insertion sort (hence stable) for the array sizes appearing in the
  concrete theorems below, and any two stable sorts agree, so the model uses a
  stable insertion sort (and a reversal for the descending sort).
-/

/-- One trade record.  Only the columns the two engines read are carried as
fields (`Port_IDs`, `timestamp`, `quantity`, `realizedProfit`); the full pandas
column list of the frame is tracked separately by `TradesDF` for the
mutation-freedom claim. -/
structure Trade where
  portId : ℕ
  timestamp : ℤ
  quantity : ℚ
  realizedProfit : ℚ
deriving DecidableEq

/-- The trades of one account: `trades_df[trades_df['Port_IDs'] == port_id]`
(also the row set of a group of `trades_df.groupby('Port_IDs')`). -/
def tradesOf (df : List Trade) (id : ℕ) : List Trade :=
  df.filter (fun t => decide (t.portId = id))

/-- Group-by sum of `realizedProfit` for one account. -/
def sumProfit (df : List Trade) (id : ℕ) : ℚ :=
  ((tradesOf df id).map Trade.realizedProfit).sum

/-- Group-by sum of `quantity` for one account. -/
def sumQty (df : List Trade) (id : ℕ) : ℚ :=
  ((tradesOf df id).map Trade.quantity).sum

/-- `.unique()` / first-occurrence deduplication, keeping input order. -/
def uniqueList {α : Type} [DecidableEq α] : List α → List α
  | [] => []
  | a :: rest => a :: uniqueList (rest.filter (fun b => decide (¬ b = a)))
termination_by l => l.length
decreasing_by
  simp only [List.length_cons]
  exact Nat.lt_succ_of_le (List.length_filter_le _ _)

/-- `metrics.calculate_roi` restricted to one account:
`np.where(quantity != 0, (realizedProfit / quantity) * 100, 0)` applied to the
group-by sums. -/
def calculate_roi (df : List Trade) (id : ℕ) : ℚ :=
  if sumQty df id ≠ 0 then (sumProfit df id / sumQty df id) * 100 else 0

/-- The spec's ROI sentence, written from the spec:
`100 * sum(realized_profit) / sum(quantity)`, and `0` when `sum(quantity) == 0`. -/
def roi_spec (df : List Trade) (id : ℕ) : ℚ :=
  if sumQty df id = 0 then 0 else 100 * sumProfit df id / sumQty df id

/-- `metrics.calculate_pnl` restricted to one account. -/
def calculate_pnl (df : List Trade) (id : ℕ) : ℚ :=
  sumProfit df id

/-- Win count of one account: trades with `realizedProfit > 0`. -/
def win_positions (df : List Trade) (id : ℕ) : ℕ :=
  ((tradesOf df id).filter (fun t => decide (0 < t.realizedProfit))).length

/-- Trade count of one account (`groupby(...).size()`). -/
def total_positions (df : List Trade) (id : ℕ) : ℕ :=
  (tradesOf df id).length

/-- `metrics.calculate_win_rate`'s `win_rate` column for one account:
`np.where(total_positions > 0, win / total * 100, 0)`. -/
def calculate_win_rate (df : List Trade) (id : ℕ) : ℚ :=
  if 0 < total_positions df id then
    ((win_positions df id : ℚ) / (total_positions df id : ℚ)) * 100
  else 0

/-- Stable sort of trades by `timestamp`, modelling
`port_trades.sort_values('timestamp')` (see the sorting convention above). -/
def sortByTimestamp (l : List Trade) : List Trade :=
  List.insertionSort (fun a b => a.timestamp ≤ b.timestamp) l

/-- `.cumprod()`: running product, first entry is the first element. -/
def cumprodAux (acc : ℚ) : List ℚ → List ℚ
  | [] => []
  | x :: t => (acc * x) :: cumprodAux (acc * x) t

/-- `(1 + returns).cumprod()` shape: cumulative product of a list. -/
def cumprod (l : List ℚ) : List ℚ :=
  cumprodAux 1 l

/-- Helper for `.expanding().max()`. -/
def runningMaxAux (mx : ℚ) : List ℚ → List ℚ
  | [] => []
  | x :: t => max mx x :: runningMaxAux (max mx x) t

/-- `.expanding().max()`: running maximum. -/
def runningMax : List ℚ → List ℚ
  | [] => []
  | x :: t => x :: runningMaxAux x t

/-- `Series.min()` with pandas semantics on the defined (non-NaN) entries:
`none` for an empty list, mirroring NaN-skipping `min` returning NaN when
nothing is left. -/
def colMin? (l : List ℚ) : Option ℚ :=
  l.foldr (fun a acc => match acc with | none => some a | some b => some (min a b)) none

/-- `Series.max()` on a rational column, `none` when empty. -/
def colMax? (l : List ℚ) : Option ℚ :=
  l.foldr (fun a acc => match acc with | none => some a | some b => some (max a b)) none

/-- `metrics.calculate_mdd` for one account.  The drawdown entry
`cum / rolling_max - 1` is NaN (`none`) when `rolling_max == 0` (then
necessarily `cum == 0`, see `runningMax_cumprod_zero`); `drawdowns.min()`
skips NaN entries and is itself NaN when every entry is NaN, in which case
`abs(min) * 100` is NaN (`none`).  Accounts absent from the frame take the
source's `len(port_trades) > 0` else-branch value `0`. -/
def calculate_mdd (df : List Trade) (id : ℕ) : Option ℚ :=
  let pt := sortByTimestamp (tradesOf df id)
  if 0 < pt.length then
    let cum := cumprod (pt.map (fun t => 1 + t.realizedProfit))
    let dd := List.zipWith (fun c mx => if mx = 0 then none else some (c / mx - 1))
      cum (runningMax cum)
    match colMin? (dd.filterMap (fun x => x)) with
    | some mn => some (|mn| * 100)
    | none => none
  else some 0

/-- Calendar date of a trade: `timestamp.dt.date`, with timestamps modelled as
milliseconds since the epoch and dates as whole days (floor division). -/
def tradeDate (t : Trade) : ℤ :=
  t.timestamp.fdiv 86400000

/-- Distinct trading dates of one account, in first-occurrence order. -/
def datesOf (df : List Trade) (id : ℕ) : List ℤ :=
  uniqueList ((tradesOf df id).map tradeDate)

/-- Distinct trading dates of one account in ascending order, the order
produced by `groupby(['Port_IDs', 'date'])` (group keys are sorted). -/
def sortedDatesOf (df : List Trade) (id : ℕ) : List ℤ :=
  List.insertionSort (fun a b : ℤ => a ≤ b) (datesOf df id)

/-- Sum of `realizedProfit` of one account on one date. -/
def daySum (df : List Trade) (id : ℕ) (d : ℤ) : ℚ :=
  (((tradesOf df id).filter (fun t => decide (tradeDate t = d))).map
    Trade.realizedProfit).sum

/-- The per-account daily return series
`daily_returns[daily_returns['Port_IDs'] == port_id]['realizedProfit']`. -/
def dailyReturns (df : List Trade) (id : ℕ) : List ℚ :=
  (sortedDatesOf df id).map (daySum df id)

/-- `Series.mean()` over the reals. -/
noncomputable def listMean (l : List ℝ) : ℝ :=
  l.sum / l.length

/-- `Series.var()` with the pandas default `ddof=1` (sample variance). -/
noncomputable def sampleVariance (l : List ℝ) : ℝ :=
  (l.map (fun x => (x - listMean l) ^ 2)).sum / ((l.length : ℝ) - 1)

/-- `Series.std()` with `ddof=1` (sample standard deviation). -/
noncomputable def sampleStd (l : List ℝ) : ℝ :=
  Real.sqrt (sampleVariance l)

/-- The daily risk-free rate `(1 + risk_free_rate) ** (1/365) - 1`. -/
noncomputable def dailyRfRate (rf : ℝ) : ℝ :=
  (1 + rf) ^ ((1 : ℝ) / 365) - 1

/-- `port_returns - daily_rf_rate`: the excess returns of a daily series. -/
noncomputable def excessOf (rf : ℝ) (rets : List ℚ) : List ℝ :=
  rets.map (fun q : ℚ => (q : ℝ) - dailyRfRate rf)

/-- `metrics.calculate_sharpe_ratio` for one account (`rf` is the annual
risk-free rate, `0.02` at the `calculate_metrics` call site). -/
noncomputable def calculate_sharpe_ratio (df : List Trade) (rf : ℝ) (id : ℕ) : ℝ :=
  let rets := dailyReturns df id
  if 1 < rets.length then
    let excess := excessOf rf rets
    let std := sampleStd excess
    if 0 < std then Real.sqrt 365 * (listMean excess / std) else 0
  else 0

/-- The spec's Sharpe sentence, written from the spec: group the account's
trades by calendar date (order not specified there; first-occurrence order is
used), Sharpe is `0` with fewer than 2 distinct dates, otherwise
`sqrt(365) * mean(excess) / std(excess)` with sample standard deviation, and
`0` when that standard deviation is zero. -/
noncomputable def sharpe_spec (df : List Trade) (rf : ℝ) (id : ℕ) : ℝ :=
  let rets := (datesOf df id).map (daySum df id)
  if rets.length < 2 then 0
  else
    let excess := excessOf rf rets
    if sampleStd excess = 0 then 0
    else Real.sqrt 365 * (listMean excess / sampleStd excess)

/-- Sorted distinct account ids: the index shared by the grouped series and
the `calculate_metrics` output frame (pandas group keys are sorted). -/
def groupKeys (df : List Trade) : List ℕ :=
  List.insertionSort (fun a b : ℕ => a ≤ b) (uniqueList (df.map Trade.portId))

/-- The `calculate_metrics` output table: its index and its seven metric
columns as keyed functions.  `Option` entries model possibly-NaN floats. -/
structure MetricsOut where
  index : List ℕ
  roi : ℕ → Option ℚ
  total_pnl : ℕ → Option ℚ
  sharpe_ratio : ℕ → Option ℝ
  max_drawdown : ℕ → Option ℚ
  win_rate : ℕ → Option ℚ
  win_positions : ℕ → Option ℚ
  total_positions : ℕ → Option ℚ

/-- `metrics.fillna(0)`: replace NaN by `0` in every metric column. -/
noncomputable def metricsFillna (t : MetricsOut) : MetricsOut :=
  MetricsOut.mk t.index
    (fun id => some ((t.roi id).getD 0))
    (fun id => some ((t.total_pnl id).getD 0))
    (fun id => some ((t.sharpe_ratio id).getD 0))
    (fun id => some ((t.max_drawdown id).getD 0))
    (fun id => some ((t.win_rate id).getD 0))
    (fun id => some ((t.win_positions id).getD 0))
    (fun id => some ((t.total_positions id).getD 0))

/-- `metrics.calculate_metrics`: `raise ValueError(...)` on an empty frame,
otherwise the joined table of the five metric computations, NaN-filled with 0.
The guarded computations (`np.where` for roi and win_rate, the `std > 0` and
`len > 1` guards for Sharpe) never produce NaN, so those columns enter the
table as `some`; `calculate_mdd` is the one possibly-NaN column. -/
noncomputable def calculate_metrics (df : List Trade) : Except String MetricsOut :=
  if df.length = 0 then Except.error "No trade data available for analysis"
  else Except.ok (metricsFillna (MetricsOut.mk (groupKeys df)
    (fun id => some (calculate_roi df id))
    (fun id => some (calculate_pnl df id))
    (fun id => some (calculate_sharpe_ratio df 0.02 id))
    (calculate_mdd df)
    (fun id => some (calculate_win_rate df id))
    (fun id => some ((win_positions df id : ℚ)))
    (fun id => some ((total_positions df id : ℚ)))))

/-- A trades DataFrame as the callers see it: its column list together with
its rows.  Used to state which columns a call adds to its input. -/
structure TradesDF where
  cols : List String
  rows : List Trade
deriving DecidableEq

/-- The effect of `trades_df['date'] = trades_df['timestamp'].dt.date` inside
`calculate_sharpe_ratio` on the caller's frame: a `date` column is appended
when absent (overwritten in place when present). -/
def sharpe_date_assign (d : TradesDF) : TradesDF :=
  TradesDF.mk (if "date" ∈ d.cols then d.cols else d.cols ++ ["date"]) d.rows

/-- The input frame after `calculate_metrics` returns.  Of all statements in
`calculate_metrics`, `calculate_roi`, `calculate_pnl`, `calculate_sharpe_ratio`,
`calculate_mdd` and `calculate_win_rate`, the only assignment into the caller's
frame is the `date` column assignment in `calculate_sharpe_ratio`; every other
operation builds a new frame or series. -/
def calculate_metrics_input_after (d : TradesDF) : TradesDF :=
  sharpe_date_assign d

/- ===== ranking.py ===== -/

/-- One row of the `AccountMetrics` table handed to the ranking engine
(`calculate_metrics` output shape: index label plus seven numeric columns). -/
structure MRow where
  portId : ℕ
  roi : ℚ
  total_pnl : ℚ
  sharpe_ratio : ℚ
  max_drawdown : ℚ
  win_rate : ℚ
  win_positions : ℚ
  total_positions : ℚ
deriving DecidableEq

/-- One row of the normalized frame built by `normalize_metrics`. -/
structure NRow where
  portId : ℕ
  roi : ℚ
  total_pnl : ℚ
  sharpe_ratio : ℚ
  win_rate : ℚ
  max_drawdown : ℚ
deriving DecidableEq

/-- Default row used with `List.getD`. -/
def nrowD : NRow :=
  NRow.mk 0 0 0 0 0 0

/-- `values.max() != values.min()` with pandas semantics: on an empty column
both are NaN and `NaN != NaN` is `False`. -/
def hasSpread (l : List ℚ) : Bool :=
  match colMax? l, colMin? l with
  | some mx, some mn => decide (mx ≠ mn)
  | _, _ => false

/-- `(values - min) / (max - min)` min-max scaling (used when the column has
spread, so the defaults of `getD` are never taken then). -/
def scaleCol (l : List ℚ) : List ℚ :=
  l.map (fun v => (v - (colMin? l).getD 0) / ((colMax? l).getD 0 - (colMin? l).getD 0))

/-- Normalization of one higher-is-better column: min-max scale when the
column has spread, otherwise broadcast `1 if values.iloc[0] > 0 else 0`
(`values.iloc[0]` raises IndexError on an empty column, modelled by `none`). -/
def normCol (l : List ℚ) : Option (List ℚ) :=
  if hasSpread l then some (scaleCol l)
  else match l.head? with
    | some h0 => some (l.map (fun _ => if 0 < h0 then (1 : ℚ) else 0))
    | none => none

/-- Normalization of the `max_drawdown` column (lower is better): inverted
min-max scaling when there is spread, otherwise `1` for every account. -/
def normMddCol (l : List ℚ) : List ℚ :=
  if hasSpread l then (scaleCol l).map (fun x => 1 - x)
  else l.map (fun _ => 1)

/-- `ranking.normalize_metrics`.  The source first copies the frame and
replaces `±inf`/NaN by `0`, a no-op in exact rational arithmetic; it then
normalizes the four higher-is-better columns and the inverted `max_drawdown`
column over the full population. -/
def normalize_metrics (metrics_df : List MRow) : Option (List NRow) :=
  let mddN := normMddCol (metrics_df.map MRow.max_drawdown)
  match normCol (metrics_df.map MRow.roi), normCol (metrics_df.map MRow.total_pnl),
      normCol (metrics_df.map MRow.sharpe_ratio), normCol (metrics_df.map MRow.win_rate) with
  | some roiN, some pnlN, some shN, some wrN =>
    some ((List.range metrics_df.length).map (fun i =>
      NRow.mk ((metrics_df.map MRow.portId).getD i 0)
        (roiN.getD i 0) (pnlN.getD i 0) (shN.getD i 0) (wrN.getD i 0) (mddN.getD i 0)))
  | _, _, _, _ => none

/-- The fixed ranking weights of `ranking.get_feature_importance`:
roi `0.25`, total_pnl `0.20`, sharpe_ratio `0.20`, max_drawdown `0.15`,
win_rate `0.20`, in that (dict insertion) order. -/
structure Weights where
  roi : ℚ
  total_pnl : ℚ
  sharpe_ratio : ℚ
  max_drawdown : ℚ
  win_rate : ℚ
deriving DecidableEq

/-- `ranking.get_feature_importance()`. -/
def get_feature_importance : Weights :=
  Weights.mk 0.25 0.20 0.20 0.15 0.20

/-- The weighted-score accumulation of `rank_accounts`: start from the `0`
series and add `normalized_metrics[metric] * weight` in dict order. -/
def scoreOf (w : Weights) (n : NRow) : ℚ :=
  0 + n.roi * w.roi + n.total_pnl * w.total_pnl + n.sharpe_ratio * w.sharpe_ratio
    + n.max_drawdown * w.max_drawdown + n.win_rate * w.win_rate

/-- `np.round` / `Series.round(2)`: round half to even at two decimals. -/
def roundHalfEven (q : ℚ) : ℤ :=
  if q - ⌊q⌋ < 1 / 2 then ⌊q⌋
  else if 1 / 2 < q - ⌊q⌋ then ⌊q⌋ + 1
  else if ⌊q⌋ % 2 = 0 then ⌊q⌋ else ⌊q⌋ + 1

/-- `Series.round(2)`. -/
def round2 (q : ℚ) : ℚ :=
  (roundHalfEven (q * 100) : ℚ) / 100

/-- A `rankings` row before rank assignment: the columns built by
`rank_accounts` (display metrics rounded to 2 decimals, score unrounded). -/
structure PRow where
  portId : ℕ
  score : ℚ
  roi : ℚ
  total_pnl : ℚ
  sharpe_ratio : ℚ
  max_drawdown : ℚ
  win_rate : ℚ
  win_positions : ℚ
  total_positions : ℚ
deriving DecidableEq

/-- A `rankings` row after `rankings['Rank'] = range(1, len + 1)`. -/
structure RRow where
  rank : ℕ
  portId : ℕ
  score : ℚ
  roi : ℚ
  total_pnl : ℚ
  sharpe_ratio : ℚ
  max_drawdown : ℚ
  win_rate : ℚ
  win_positions : ℚ
  total_positions : ℚ
deriving DecidableEq

/-- One `rankings` row as built by `rank_accounts` from a metrics row and its
normalized row: `Port_IDs` from the index, the unrounded weighted score, the
five display metrics rounded to two decimals, and the two raw counts. -/
def mkPRow (w : Weights) (p : MRow × NRow) : PRow :=
  PRow.mk p.1.portId (scoreOf w p.2) (round2 p.1.roi) (round2 p.1.total_pnl)
    (round2 p.1.sharpe_ratio) (round2 p.1.max_drawdown) (round2 p.1.win_rate)
    p.1.win_positions p.1.total_positions

/-- Attach a rank to a pre-rank row. -/
def toRRow (r : ℕ) (p : PRow) : RRow :=
  RRow.mk r p.portId p.score p.roi p.total_pnl p.sharpe_ratio p.max_drawdown
    p.win_rate p.win_positions p.total_positions

/-- `rankings['Rank'] = range(i, i + len)` in row order. -/
def addRanks : ℕ → List PRow → List RRow
  | _, [] => []
  | i, p :: rest => toRRow i p :: addRanks (i + 1) rest

/-- `sort_values('Score', ascending=False)`: stable ascending argsort followed
by the pandas reversal of the permutation (see the sorting convention in the
header comment). -/
def sortByScoreDesc (l : List PRow) : List PRow :=
  (List.insertionSort (fun a b => a.score ≤ b.score) l).reverse

/-- `DataFrame.head(n)`: the first `n` rows for `n ≥ 0`, and all rows but the
last `|n|` for negative `n`. -/
def pandasHead {α : Type} (n : ℤ) (l : List α) : List α :=
  if 0 ≤ n then l.take n.toNat else l.take (l.length - n.natAbs)

/-- `ranking.rank_accounts` (the source's `top_n` default is 20).  `none`
models the IndexError that `normalize_metrics` raises on an empty table. -/
def rank_accounts (metrics_df : List MRow) (top_n : ℤ) : Option (List RRow) :=
  match normalize_metrics metrics_df with
  | none => none
  | some nd =>
    let w := get_feature_importance
    let rankings := (metrics_df.zip nd).map (mkPRow w)
    some (addRanks 1 (pandasHead top_n (sortByScoreDesc rankings)))

/-- `normalize_metrics` works on `df = metrics_df.copy()` and writes only to
that copy and to the fresh `normalized_data` frame: the caller's table after
the call. -/
def normalize_metrics_input_after (m : List MRow) : List MRow :=
  m

/-- `rank_accounts` only reads `metrics_df` columns (all writes go to the
`rankings` frame and the normalized copy): the caller's table after the call. -/
def rank_accounts_input_after (m : List MRow) : List MRow :=
  m

/-- The spec's normalization sentence for a higher-is-better column, written
from the spec: min-max scaling `(value - min) / (max - min)` across the
population; when `max == min`, `1` for an account whose (shared) raw value is
positive and `0` otherwise. -/
def normEntrySpec (col : List ℚ) (i : ℕ) : ℚ :=
  let mn := (colMin? col).getD 0
  let mx := (colMax? col).getD 0
  if mx ≠ mn then (col.getD i 0 - mn) / (mx - mn)
  else if 0 < col.getD i 0 then 1 else 0

/-- The spec's normalization sentence for `max_drawdown`, written from the
spec: inverted min-max scaling `1 - (value - min) / (max - min)`; `1` for
every account when `max == min`. -/
def normMddEntrySpec (col : List ℚ) (i : ℕ) : ℚ :=
  let mn := (colMin? col).getD 0
  let mx := (colMax? col).getD 0
  if mx ≠ mn then 1 - (col.getD i 0 - mn) / (mx - mn) else 1

/- Concrete inputs used by the counterexample and witness theorems. -/

/-- Two accounts (input order 1 then 2) with identical metrics: their
composite scores tie. -/
def tiedMetrics : List MRow :=
  [MRow.mk 1 0 0 0 0 0 0 0, MRow.mk 2 0 0 0 0 0 0 0]

/-- A one-account metrics table. -/
def soloMetrics : List MRow :=
  [MRow.mk 9 5 10 1 2 50 3 6]

/-- A trades frame with the repository's raw column list and one row. -/
def exFrame : TradesDF :=
  TradesDF.mk ["Port_IDs", "timestamp", "symbol", "side", "price", "quantity",
    "realizedProfit"] [Trade.mk 1 0 1 1]

/-- One account with a single trade of `realizedProfit = -1`: the cumulative
product is `0`, so every drawdown entry is `0/0`. -/
def ruinTrade : List Trade :=
  [Trade.mk 7 0 1 (-1)]

/-- One account with a single ordinary trade. -/
def profitTrade : List Trade :=
  [Trade.mk 5 0 2 3]

/-- One account with successive realized profits `[1, -1.6]` on two days. -/
def bigDropTrades : List Trade :=
  [Trade.mk 3 0 1 1, Trade.mk 3 86400000 1 (-1.6)]

/-- A two-account trade table. -/
def pairTrades : List Trade :=
  [Trade.mk 4 0 2 1, Trade.mk 6 0 3 (-2)]

/- ===== supporting lemmas ===== -/

theorem colMin?_cons (a : ℚ) (t : List ℚ) :
    colMin? (a :: t) =
      (match colMin? t with | none => some a | some b => some (min a b)) := rfl

theorem colMax?_cons (a : ℚ) (t : List ℚ) :
    colMax? (a :: t) =
      (match colMax? t with | none => some a | some b => some (max a b)) := rfl

theorem colMin?_isSome (l : List ℚ) (hl : l ≠ []) : (colMin? l).isSome := by
  cases l with
  | nil => exact absurd rfl hl
  | cons a t =>
    rw [colMin?_cons]
    cases colMin? t <;> simp

theorem colMax?_isSome (l : List ℚ) (hl : l ≠ []) : (colMax? l).isSome := by
  cases l with
  | nil => exact absurd rfl hl
  | cons a t =>
    rw [colMax?_cons]
    cases colMax? t <;> simp

theorem colMin?_le (l : List ℚ) (x mn : ℚ) (hx : x ∈ l) (h : colMin? l = some mn) :
    mn ≤ x := by
  induction l generalizing mn with
  | nil => cases hx
  | cons a t ih =>
    rw [colMin?_cons] at h
    rcases List.mem_cons.mp hx with rfl | hxt
    · cases ht : colMin? t with
      | none => rw [ht] at h; simp at h; simp [h]
      | some b => rw [ht] at h; simp at h; rw [← h]; exact min_le_left _ _
    · cases ht : colMin? t with
      | none =>
        rcases t with _ | ⟨c, s⟩
        · cases hxt
        · have h1 := colMin?_isSome (c :: s) (by simp)
          rw [ht] at h1
          simp at h1
      | some b =>
        rw [ht] at h; simp at h; rw [← h]
        exact le_trans (min_le_right _ _) (ih b hxt ht)

theorem le_colMax? (l : List ℚ) (x mx : ℚ) (hx : x ∈ l) (h : colMax? l = some mx) :
    x ≤ mx := by
  induction l generalizing mx with
  | nil => cases hx
  | cons a t ih =>
    rw [colMax?_cons] at h
    rcases List.mem_cons.mp hx with rfl | hxt
    · cases ht : colMax? t with
      | none => rw [ht] at h; simp at h; simp [h]
      | some b => rw [ht] at h; simp at h; rw [← h]; exact le_max_left _ _
    · cases ht : colMax? t with
      | none =>
        rcases t with _ | ⟨c, s⟩
        · cases hxt
        · have h1 := colMax?_isSome (c :: s) (by simp)
          rw [ht] at h1
          simp at h1
      | some b =>
        rw [ht] at h; simp at h; rw [← h]
        exact le_trans (ih b hxt ht) (le_max_right _ _)

theorem colMin?_mem (l : List ℚ) (mn : ℚ) (h : colMin? l = some mn) : mn ∈ l := by
  induction l generalizing mn with
  | nil => simp [colMin?] at h
  | cons a t ih =>
    rw [colMin?_cons] at h
    cases ht : colMin? t with
    | none => rw [ht] at h; simp at h; simp [h]
    | some b =>
      rw [ht] at h; simp at h
      rcases min_choice a b with hc | hc
      · exact List.mem_cons.mpr (Or.inl (by rw [← h, hc]))
      · exact List.mem_cons.mpr (Or.inr (by rw [← h, hc]; exact ih b ht))

theorem colMax?_mem (l : List ℚ) (mx : ℚ) (h : colMax? l = some mx) : mx ∈ l := by
  induction l generalizing mx with
  | nil => simp [colMax?] at h
  | cons a t ih =>
    rw [colMax?_cons] at h
    cases ht : colMax? t with
    | none => rw [ht] at h; simp at h; simp [h]
    | some b =>
      rw [ht] at h; simp at h
      rcases max_choice a b with hc | hc
      · exact List.mem_cons.mpr (Or.inl (by rw [← h, hc]))
      · exact List.mem_cons.mpr (Or.inr (by rw [← h, hc]; exact ih b ht))

theorem hasSpread_true_elim (l : List ℚ) (h : hasSpread l = true) :
    ∃ mn mx, colMin? l = some mn ∧ colMax? l = some mx ∧ mn < mx := by
  unfold hasSpread at h
  cases hmx : colMax? l with
  | none => rw [hmx] at h; simp at h
  | some mx =>
    cases hmn : colMin? l with
    | none => rw [hmx, hmn] at h; simp at h
    | some mn =>
      rw [hmx, hmn] at h
      simp at h
      have hle : mn ≤ mx := le_colMax? l mn mx (colMin?_mem l mn hmn) hmx
      exact ⟨mn, mx, rfl, rfl, lt_of_le_of_ne hle (fun e => h e.symm)⟩

theorem hasSpread_false_eq (l : List ℚ) (hl : l ≠ []) (h : hasSpread l = false) :
    ∃ c, colMin? l = some c ∧ colMax? l = some c := by
  unfold hasSpread at h
  cases hmx : colMax? l with
  | none =>
    have h1 := colMax?_isSome l hl
    rw [hmx] at h1; simp at h1
  | some mx =>
    cases hmn : colMin? l with
    | none =>
      have h1 := colMin?_isSome l hl
      rw [hmn] at h1; simp at h1
    | some mn =>
      rw [hmx, hmn] at h
      simp at h
      exact ⟨mn, rfl, by rw [h]⟩

theorem hasSpread_false_all_eq (l : List ℚ) (h : hasSpread l = false) (x y : ℚ)
    (hx : x ∈ l) (hy : y ∈ l) : x = y := by
  have hl : l ≠ [] := by intro e; rw [e] at hx; cases hx
  obtain ⟨c, hmn, hmx⟩ := hasSpread_false_eq l hl h
  have hx1 := colMin?_le l x c hx hmn
  have hx2 := le_colMax? l x c hx hmx
  have hy1 := colMin?_le l y c hy hmn
  have hy2 := le_colMax? l y c hy hmx
  rw [le_antisymm hx2 hx1, le_antisymm hy2 hy1]

theorem scaleCol_length (l : List ℚ) : (scaleCol l).length = l.length := by
  simp [scaleCol]

theorem scaleCol_mem_bounds (l : List ℚ) (hs : hasSpread l = true) (x : ℚ)
    (hx : x ∈ scaleCol l) : 0 ≤ x ∧ x ≤ 1 := by
  obtain ⟨mn, mx, hmn, hmx, hlt⟩ := hasSpread_true_elim l hs
  obtain ⟨v, hv, rfl⟩ := List.mem_map.mp hx
  rw [hmn, hmx]
  simp only [Option.getD_some]
  have h1 : mn ≤ v := colMin?_le l v mn hv hmn
  have h2 : v ≤ mx := le_colMax? l v mx hv hmx
  have h3 : (0 : ℚ) < mx - mn := by linarith
  constructor
  · exact div_nonneg (by linarith) (le_of_lt h3)
  · rw [div_le_one h3]; linarith

theorem normCol_isSome (l : List ℚ) (hl : l ≠ []) : (normCol l).isSome := by
  unfold normCol
  cases hs : hasSpread l
  · cases l with
    | nil => exact absurd rfl hl
    | cons a t => simp
  · simp

theorem normCol_length (l nl : List ℚ) (h : normCol l = some nl) :
    nl.length = l.length := by
  unfold normCol at h
  cases hs : hasSpread l <;> rw [hs] at h
  · cases hh : l.head? <;> rw [hh] at h
    · cases h
    · simp at h; rw [← h]; simp
  · simp at h; rw [← h]; exact scaleCol_length l

theorem normCol_mem_bounds (l nl : List ℚ) (h : normCol l = some nl) (x : ℚ)
    (hx : x ∈ nl) : 0 ≤ x ∧ x ≤ 1 := by
  unfold normCol at h
  cases hs : hasSpread l <;> rw [hs] at h
  · cases hh : l.head? with
    | none => rw [hh] at h; cases h
    | some h0 =>
      rw [hh] at h
      simp at h
      rw [← h] at hx
      have hx2 := List.eq_of_mem_replicate hx
      rw [hx2]
      by_cases hp : 0 < h0 <;> norm_num [hp]
  · simp at h
    rw [← h] at hx
    exact scaleCol_mem_bounds l hs x hx

theorem normMddCol_length (l : List ℚ) : (normMddCol l).length = l.length := by
  unfold normMddCol
  cases hs : hasSpread l <;> simp [scaleCol_length]

theorem normMddCol_mem_bounds (l : List ℚ) (x : ℚ) (hx : x ∈ normMddCol l) :
    0 ≤ x ∧ x ≤ 1 := by
  unfold normMddCol at hx
  cases hs : hasSpread l <;> rw [hs] at hx <;> simp at hx
  · obtain ⟨v, _, rfl⟩ := hx
    norm_num
  · obtain ⟨v, hv, rfl⟩ := hx
    have := scaleCol_mem_bounds l hs v hv
    constructor <;> linarith [this.1, this.2]

theorem mem_uniqueList {α : Type} [DecidableEq α] (x : α) (l : List α) :
    x ∈ uniqueList l ↔ x ∈ l := by
  induction l using uniqueList.induct with
  | case1 => simp [uniqueList]
  | case2 a rest ih =>
    rw [uniqueList]
    simp only [List.mem_cons, ih, List.mem_filter, decide_eq_true_eq]
    constructor
    · rintro (rfl | ⟨h1, _⟩)
      · exact Or.inl rfl
      · exact Or.inr h1
    · rintro (rfl | h1)
      · exact Or.inl rfl
      · by_cases hxa : x = a
        · exact Or.inl hxa
        · exact Or.inr ⟨h1, hxa⟩

theorem uniqueList_nodup {α : Type} [DecidableEq α] (l : List α) :
    (uniqueList l).Nodup := by
  induction l using uniqueList.induct with
  | case1 => simp [uniqueList]
  | case2 a rest ih =>
    rw [uniqueList]
    refine List.nodup_cons.mpr ⟨?_, ih⟩
    rw [mem_uniqueList]
    simp

theorem normCol_getD_spec (l nl : List ℚ) (h : normCol l = some nl) (i : ℕ)
    (hi : i < l.length) : nl.getD i 0 = normEntrySpec l i := by
  have hl : l ≠ [] := List.ne_nil_of_length_pos (by omega)
  unfold normCol at h
  unfold normEntrySpec
  cases hs : hasSpread l <;> rw [hs] at h
  · obtain ⟨c, hmn, hmx⟩ := hasSpread_false_eq l hl hs
    cases hh : l.head? with
    | none => rw [List.head?_eq_none_iff] at hh; exact absurd hh hl
    | some h0 =>
      rw [hh] at h
      simp at h
      rw [← h, List.getD_eq_getElem _ _ (by simpa using hi), List.getElem_replicate]
      simp only [hmn, hmx, Option.getD_some]
      rw [if_neg (show ¬ (c ≠ c) from fun hcc => hcc rfl)]
      have hmem : l.getD i 0 ∈ l := by
        rw [List.getD_eq_getElem l 0 hi]
        exact List.getElem_mem hi
      rw [hasSpread_false_all_eq l hs (l.getD i 0) h0 hmem (List.mem_of_mem_head? hh)]
  · simp at h
    rw [← h]
    obtain ⟨mn, mx, hmn, hmx, hlt⟩ := hasSpread_true_elim l hs
    unfold scaleCol
    rw [List.getD_eq_getElem _ _ (by simpa using hi), List.getElem_map]
    simp only [hmn, hmx, Option.getD_some]
    rw [if_pos (ne_of_gt hlt), List.getD_eq_getElem l 0 hi]

theorem normMddCol_getD_spec (l : List ℚ) (hl : l ≠ []) (i : ℕ) (hi : i < l.length) :
    (normMddCol l).getD i 0 = normMddEntrySpec l i := by
  unfold normMddCol
  unfold normMddEntrySpec
  cases hs : hasSpread l
  · obtain ⟨c, hmn, hmx⟩ := hasSpread_false_eq l hl hs
    simp only [Bool.false_eq_true, if_false]
    rw [List.getD_eq_getElem _ _ (by simpa using hi), List.getElem_map]
    simp only [hmn, hmx, Option.getD_some]
    rw [if_neg (show ¬ (c ≠ c) from fun hcc => hcc rfl)]
  · obtain ⟨mn, mx, hmn, hmx, hlt⟩ := hasSpread_true_elim l hs
    simp only [if_true]
    rw [List.getD_eq_getElem _ _ (by simp [scaleCol_length]; omega), List.getElem_map]
    unfold scaleCol
    rw [List.getElem_map]
    simp only [hmn, hmx, Option.getD_some]
    rw [if_pos (ne_of_gt hlt), List.getD_eq_getElem l 0 hi]

theorem normalize_metrics_unfold (m : List MRow) (roiN pnlN shN wrN : List ℚ)
    (h1 : normCol (m.map MRow.roi) = some roiN)
    (h2 : normCol (m.map MRow.total_pnl) = some pnlN)
    (h3 : normCol (m.map MRow.sharpe_ratio) = some shN)
    (h4 : normCol (m.map MRow.win_rate) = some wrN) :
    normalize_metrics m = some ((List.range m.length).map (fun i =>
      NRow.mk ((m.map MRow.portId).getD i 0) (roiN.getD i 0) (pnlN.getD i 0)
        (shN.getD i 0) (wrN.getD i 0)
        ((normMddCol (m.map MRow.max_drawdown)).getD i 0))) := by
  unfold normalize_metrics
  rw [h1, h2, h3, h4]


theorem map_ne_nil {α β : Type} (f : α → β) (l : List α) (hl : l ≠ []) :
    l.map f ≠ [] := by
  cases l with
  | nil => exact absurd rfl hl
  | cons a t => simp

theorem normalize_metrics_cols (m : List MRow) (hm : m ≠ []) :
    ∃ roiN pnlN shN wrN,
      normCol (m.map MRow.roi) = some roiN ∧
      normCol (m.map MRow.total_pnl) = some pnlN ∧
      normCol (m.map MRow.sharpe_ratio) = some shN ∧
      normCol (m.map MRow.win_rate) = some wrN := by
  have h1 := normCol_isSome (m.map MRow.roi) (map_ne_nil _ _ hm)
  have h2 := normCol_isSome (m.map MRow.total_pnl) (map_ne_nil _ _ hm)
  have h3 := normCol_isSome (m.map MRow.sharpe_ratio) (map_ne_nil _ _ hm)
  have h4 := normCol_isSome (m.map MRow.win_rate) (map_ne_nil _ _ hm)
  rw [Option.isSome_iff_exists] at h1 h2 h3 h4
  obtain ⟨roiN, h1⟩ := h1
  obtain ⟨pnlN, h2⟩ := h2
  obtain ⟨shN, h3⟩ := h3
  obtain ⟨wrN, h4⟩ := h4
  exact ⟨roiN, pnlN, shN, wrN, h1, h2, h3, h4⟩

/-- C5: for each of roi, total_pnl, sharpe_ratio and win_rate, `normalize_metrics`
min-max scales each account when the population max differs from the min, and
otherwise assigns 1 to every account whose (shared) raw value is positive and 0
otherwise; the max_drawdown column is scaled inversely, with 1 for every
account when max equals min. -/
theorem normalize_metrics_minmax (m : List MRow) (hm : m ≠ []) :
    ∃ nd, normalize_metrics m = some nd ∧ nd.length = m.length ∧
      ∀ i, i < m.length →
        (nd.getD i nrowD).roi = normEntrySpec (m.map MRow.roi) i ∧
        (nd.getD i nrowD).total_pnl = normEntrySpec (m.map MRow.total_pnl) i ∧
        (nd.getD i nrowD).sharpe_ratio = normEntrySpec (m.map MRow.sharpe_ratio) i ∧
        (nd.getD i nrowD).win_rate = normEntrySpec (m.map MRow.win_rate) i ∧
        (nd.getD i nrowD).max_drawdown = normMddEntrySpec (m.map MRow.max_drawdown) i := by
  obtain ⟨roiN, pnlN, shN, wrN, h1, h2, h3, h4⟩ := normalize_metrics_cols m hm
  refine ⟨_, normalize_metrics_unfold m roiN pnlN shN wrN h1 h2 h3 h4, by simp, ?_⟩
  intro i hi
  have hgd : ((List.range m.length).map (fun i =>
      NRow.mk ((m.map MRow.portId).getD i 0) (roiN.getD i 0) (pnlN.getD i 0)
        (shN.getD i 0) (wrN.getD i 0)
        ((normMddCol (m.map MRow.max_drawdown)).getD i 0))).getD i nrowD =
      NRow.mk ((m.map MRow.portId).getD i 0) (roiN.getD i 0) (pnlN.getD i 0)
        (shN.getD i 0) (wrN.getD i 0)
        ((normMddCol (m.map MRow.max_drawdown)).getD i 0) := by
    rw [List.getD_eq_getElem _ _ (by simpa using hi), List.getElem_map, List.getElem_range]
  rw [hgd]
  refine ⟨?_, ?_, ?_, ?_, ?_⟩
  · exact normCol_getD_spec _ _ h1 i (by simpa using hi)
  · exact normCol_getD_spec _ _ h2 i (by simpa using hi)
  · exact normCol_getD_spec _ _ h3 i (by simpa using hi)
  · exact normCol_getD_spec _ _ h4 i (by simpa using hi)
  · exact normMddCol_getD_spec _ (map_ne_nil _ _ hm) i (by simpa using hi)

instance : IsTotal PRow (fun a b => a.score ≤ b.score) :=
  ⟨fun a b => le_total a.score b.score⟩

instance : IsTrans PRow (fun a b => a.score ≤ b.score) :=
  ⟨fun _ _ _ h1 h2 => le_trans h1 h2⟩

theorem addRanks_length (i : ℕ) (l : List PRow) : (addRanks i l).length = l.length := by
  induction l generalizing i with
  | nil => rfl
  | cons p rest ih => simp [addRanks, ih]

theorem addRanks_map_rank (i : ℕ) (l : List PRow) :
    (addRanks i l).map RRow.rank = List.range' i l.length := by
  induction l generalizing i with
  | nil => rfl
  | cons p rest ih => simp [addRanks, toRRow, ih, List.range'_succ]

theorem addRanks_map_score (i : ℕ) (l : List PRow) :
    (addRanks i l).map RRow.score = l.map PRow.score := by
  induction l generalizing i with
  | nil => rfl
  | cons p rest ih => simp [addRanks, toRRow, ih]

theorem mem_addRanks (i : ℕ) (l : List PRow) (e : RRow) (he : e ∈ addRanks i l) :
    ∃ j p, p ∈ l ∧ e = toRRow j p := by
  induction l generalizing i with
  | nil => cases he
  | cons p rest ih =>
    rcases List.mem_cons.mp he with rfl | he2
    · exact ⟨i, p, List.mem_cons_self _ _, rfl⟩
    · obtain ⟨j, q, hq, rfl⟩ := ih (i + 1) he2
      exact ⟨j, q, List.mem_cons_of_mem _ hq, rfl⟩

theorem sortByScoreDesc_perm (l : List PRow) : List.Perm (sortByScoreDesc l) l :=
  (List.reverse_perm _).trans (List.perm_insertionSort _ l)

theorem sortByScoreDesc_pairwise (l : List PRow) :
    (sortByScoreDesc l).Pairwise (fun a b => b.score ≤ a.score) := by
  unfold sortByScoreDesc
  rw [List.pairwise_reverse]
  exact List.sorted_insertionSort _ l

theorem mem_pandasHead {α : Type} (n : ℤ) (l : List α) (x : α)
    (hx : x ∈ pandasHead n l) : x ∈ l := by
  unfold pandasHead at hx
  split at hx <;> exact (List.take_sublist _ _).mem hx

theorem pandasHead_length_nonneg {α : Type} (n : ℤ) (l : List α) (hn : 0 ≤ n) :
    (pandasHead n l).length = min n.toNat l.length := by
  unfold pandasHead
  rw [if_pos hn, List.length_take]

theorem pandasHead_length_neg {α : Type} (n : ℤ) (l : List α) (hn : n < 0) :
    (pandasHead n l).length = l.length - n.natAbs := by
  unfold pandasHead
  rw [if_neg (by omega), List.length_take]
  omega

theorem pandasHead_pairwise {α : Type} (R : α → α → Prop) (n : ℤ) (l : List α)
    (h : l.Pairwise R) : (pandasHead n l).Pairwise R := by
  unfold pandasHead
  split <;> exact h.sublist (List.take_sublist _ _)

theorem normalize_metrics_some (m : List MRow) (hm : m ≠ []) :
    ∃ nd, normalize_metrics m = some nd ∧ nd.length = m.length := by
  obtain ⟨roiN, pnlN, shN, wrN, h1, h2, h3, h4⟩ := normalize_metrics_cols m hm
  exact ⟨_, normalize_metrics_unfold m roiN pnlN shN wrN h1 h2 h3 h4, by simp⟩

theorem rank_accounts_unfold (m : List MRow) (n : ℤ) (nd : List NRow)
    (h : normalize_metrics m = some nd) :
    rank_accounts m n = some (addRanks 1 (pandasHead n (sortByScoreDesc
      ((m.zip nd).map (mkPRow get_feature_importance))))) := by
  unfold rank_accounts
  rw [h]

theorem normalize_metrics_mem_bounds (m : List MRow) (nd : List NRow)
    (h : normalize_metrics m = some nd) (x : NRow) (hx : x ∈ nd) :
    (0 ≤ x.roi ∧ x.roi ≤ 1) ∧ (0 ≤ x.total_pnl ∧ x.total_pnl ≤ 1) ∧
    (0 ≤ x.sharpe_ratio ∧ x.sharpe_ratio ≤ 1) ∧ (0 ≤ x.win_rate ∧ x.win_rate ≤ 1) ∧
    (0 ≤ x.max_drawdown ∧ x.max_drawdown ≤ 1) := by
  unfold normalize_metrics at h
  cases h1 : normCol (List.map MRow.roi m) <;> rw [h1] at h
  · cases h
  cases h2 : normCol (List.map MRow.total_pnl m) <;> rw [h2] at h
  · cases h
  cases h3 : normCol (List.map MRow.sharpe_ratio m) <;> rw [h3] at h
  · cases h
  cases h4 : normCol (List.map MRow.win_rate m) <;> rw [h4] at h
  · cases h
  simp only [Option.some.injEq] at h
  rw [← h] at hx
  obtain ⟨i, hir, rfl⟩ := List.mem_map.mp hx
  have hi : i < m.length := List.mem_range.mp hir
  rename_i roiN pnlN shN wrN
  refine ⟨?_, ?_, ?_, ?_, ?_⟩
  · have hlen : roiN.length = m.length := by
      rw [normCol_length _ _ h1, List.length_map]
    refine normCol_mem_bounds _ _ h1 _ ?_
    show roiN.getD i 0 ∈ roiN
    rw [List.getD_eq_getElem _ _ (by rw [hlen]; exact hi)]
    exact List.getElem_mem _
  · have hlen : pnlN.length = m.length := by
      rw [normCol_length _ _ h2, List.length_map]
    refine normCol_mem_bounds _ _ h2 _ ?_
    show pnlN.getD i 0 ∈ pnlN
    rw [List.getD_eq_getElem _ _ (by rw [hlen]; exact hi)]
    exact List.getElem_mem _
  · have hlen : shN.length = m.length := by
      rw [normCol_length _ _ h3, List.length_map]
    refine normCol_mem_bounds _ _ h3 _ ?_
    show shN.getD i 0 ∈ shN
    rw [List.getD_eq_getElem _ _ (by rw [hlen]; exact hi)]
    exact List.getElem_mem _
  · have hlen : wrN.length = m.length := by
      rw [normCol_length _ _ h4, List.length_map]
    refine normCol_mem_bounds _ _ h4 _ ?_
    show wrN.getD i 0 ∈ wrN
    rw [List.getD_eq_getElem _ _ (by rw [hlen]; exact hi)]
    exact List.getElem_mem _
  · have hlen : (normMddCol (List.map MRow.max_drawdown m)).length = m.length := by
      rw [normMddCol_length, List.length_map]
    refine normMddCol_mem_bounds (List.map MRow.max_drawdown m) _ ?_
    show (normMddCol (List.map MRow.max_drawdown m)).getD i 0 ∈ normMddCol (List.map MRow.max_drawdown m)
    rw [List.getD_eq_getElem _ _ (by rw [hlen]; exact hi)]
    exact List.getElem_mem _

/-- C2 counterexample: two accounts with identical metrics (input order: account
1 then account 2) tie at score 3/20, and `rank_accounts` ranks account 2 first:
tied accounts do not keep their original input order (pandas reverses the
stable ascending argsort to produce the descending order). -/
theorem rank_accounts_tie_reversal :
    (rank_accounts tiedMetrics 20).map (fun r => r.map RRow.portId) = some [2, 1] ∧
    (rank_accounts tiedMetrics 20).map (fun r => r.map RRow.score) =
      some [3 / 20, 3 / 20] := by
  norm_num [rank_accounts, tiedMetrics, normalize_metrics, normCol, normMddCol, hasSpread,
    colMin?, colMax?, scaleCol, List.filterMap_cons, mkPRow, scoreOf, get_feature_importance,
    sortByScoreDesc, List.insertionSort, List.orderedInsert, pandasHead, addRanks, toRRow,
    round2, roundHalfEven, List.range, List.range.loop, min_def, max_def]

/-- C2 (amended): on a nonempty metrics table with `top_n ≥ 0`, `rank_accounts`
sorts all accounts in descending order of composite score, keeps the top
`top_n`, and assigns rank values forming exactly the contiguous sequence
`1..k` with `k = min(top_n, number of accounts)`; equal scores are ordered by
the reversed stable ascending sort (implementation-defined, reverse input
order on small tables), not by the original input order. -/
theorem rank_accounts_order_ranks (m : List MRow) (n : ℤ) (hm : m ≠ []) (hn : 0 ≤ n) :
    ∃ r, rank_accounts m n = some r ∧
      r.length = min n.toNat m.length ∧
      r.map RRow.rank = List.range' 1 r.length ∧
      (r.map RRow.score).Pairwise (fun a b => b ≤ a) := by
  obtain ⟨nd, hnd, hndlen⟩ := normalize_metrics_some m hm
  have hr := rank_accounts_unfold m n nd hnd
  have hplen : ((m.zip nd).map (mkPRow get_feature_importance)).length = m.length := by
    simp [List.length_zip, hndlen]
  have hslen : (sortByScoreDesc ((m.zip nd).map (mkPRow get_feature_importance))).length
      = m.length := by
    rw [(sortByScoreDesc_perm _).length_eq, hplen]
  refine ⟨_, hr, ?_, ?_, ?_⟩
  · rw [addRanks_length, pandasHead_length_nonneg _ _ hn, hslen]
  · rw [addRanks_map_rank, addRanks_length]
  · rw [addRanks_map_score]
    exact List.pairwise_map.mpr
      (pandasHead_pairwise _ n _ (sortByScoreDesc_pairwise _))

/-- Witness for the C2 theorem at a concrete one-account table and the default
`top_n = 20`. -/
theorem rank_accounts_order_ranks_witness :
    soloMetrics ≠ [] ∧ (0 : ℤ) ≤ 20 ∧
    ∃ r, rank_accounts soloMetrics 20 = some r ∧
      r.length = min (20 : ℤ).toNat soloMetrics.length ∧
      r.map RRow.rank = List.range' 1 r.length ∧
      (r.map RRow.score).Pairwise (fun a b => b ≤ a) :=
  ⟨by decide, by decide, rank_accounts_order_ranks soloMetrics 20 (by decide) (by decide)⟩

/-- C3 counterexample: `rank_accounts` performs no `top_n` validation: with
`top_n = 0` on a nonempty table it returns normally with an empty ranking
instead of failing with an error. -/
theorem rank_accounts_zero_top_n :
    rank_accounts soloMetrics 0 = some [] := by
  norm_num [rank_accounts, soloMetrics, normalize_metrics, normCol, normMddCol, hasSpread,
    colMin?, colMax?, scaleCol, List.filterMap_cons, mkPRow, scoreOf, get_feature_importance,
    sortByScoreDesc, List.insertionSort, List.orderedInsert, pandasHead, addRanks, toRRow,
    round2, roundHalfEven, List.range, List.range.loop, min_def, max_def]

/-- C3 (amended): for every nonempty metrics table and every `top_n ≤ 0`,
`rank_accounts` returns normally — an empty ranking for `top_n = 0` and all
but the last `|top_n|` accounts for `top_n < 0` (pandas `head` semantics);
the code contains no `InvalidParameterError`. -/
theorem rank_accounts_nonpositive_top_n (m : List MRow) (n : ℤ) (hm : m ≠ [])
    (hn : n ≤ 0) :
    ∃ r, rank_accounts m n = some r ∧
      r.length = (if n = 0 then 0 else m.length - n.natAbs) := by
  obtain ⟨nd, hnd, hndlen⟩ := normalize_metrics_some m hm
  have hr := rank_accounts_unfold m n nd hnd
  have hslen : (sortByScoreDesc ((m.zip nd).map (mkPRow get_feature_importance))).length
      = m.length := by
    rw [(sortByScoreDesc_perm _).length_eq]
    simp [List.length_zip, hndlen]
  refine ⟨_, hr, ?_⟩
  rw [addRanks_length]
  by_cases h0 : n = 0
  · rw [if_pos h0, h0, pandasHead_length_nonneg _ _ le_rfl]
    simp
  · rw [if_neg h0, pandasHead_length_neg _ _ (by omega), hslen]

/-- Witness for the C3 theorem at a concrete one-account table and
`top_n = 0`. -/
theorem rank_accounts_nonpositive_top_n_witness :
    soloMetrics ≠ [] ∧ (0 : ℤ) ≤ 0 ∧
    ∃ r, rank_accounts soloMetrics 0 = some r ∧
      r.length = (if (0 : ℤ) = 0 then 0 else soloMetrics.length - (0 : ℤ).natAbs) :=
  ⟨by decide, by decide,
    rank_accounts_nonpositive_top_n soloMetrics 0 (by decide) (by decide)⟩

/-- `normalize_metrics` keeps each row's index label: the i-th normalized row
carries the i-th account id of the input table. -/
theorem normalize_metrics_portId (m : List MRow) (nd : List NRow)
    (h : normalize_metrics m = some nd) (i : ℕ) (hi : i < nd.length) :
    (nd.getD i nrowD).portId = (m.map MRow.portId).getD i 0 := by
  unfold normalize_metrics at h
  cases h1 : normCol (List.map MRow.roi m) <;> rw [h1] at h
  · cases h
  cases h2 : normCol (List.map MRow.total_pnl m) <;> rw [h2] at h
  · cases h
  cases h3 : normCol (List.map MRow.sharpe_ratio m) <;> rw [h3] at h
  · cases h
  cases h4 : normCol (List.map MRow.win_rate m) <;> rw [h4] at h
  · cases h
  simp only [Option.some.injEq] at h
  rw [← h] at hi ⊢
  rw [List.getD_eq_getElem _ _ hi, List.getElem_map, List.getElem_range]

/-- C6: for every ranked account, the composite score computed by
`rank_accounts` equals the weighted sum of that account's own five normalized
metrics — the normalized row carrying the same account id as the ranked entry —
with the fixed weights roi 0.25, total_pnl 0.20, sharpe_ratio 0.20,
max_drawdown 0.15, win_rate 0.20 (summing to 1), and the score lies in
[0, 1]. -/
theorem rank_accounts_score_weighted (m : List MRow) (n : ℤ) (hm : m ≠ []) :
    get_feature_importance = Weights.mk 0.25 0.20 0.20 0.15 0.20 ∧
    get_feature_importance.roi + get_feature_importance.total_pnl +
      get_feature_importance.sharpe_ratio + get_feature_importance.max_drawdown +
      get_feature_importance.win_rate = 1 ∧
    ∃ nd, normalize_metrics m = some nd ∧
      ∀ r, rank_accounts m n = some r → ∀ e, e ∈ r →
        (∃ nrow, nrow ∈ nd ∧ nrow.portId = e.portId ∧ e.score =
          nrow.roi * 0.25 + nrow.total_pnl * 0.20 + nrow.sharpe_ratio * 0.20 +
            nrow.max_drawdown * 0.15 + nrow.win_rate * 0.20) ∧
        0 ≤ e.score ∧ e.score ≤ 1 := by
  obtain ⟨nd, hnd, hndlen⟩ := normalize_metrics_some m hm
  refine ⟨rfl, by norm_num [get_feature_importance], nd, hnd, ?_⟩
  intro r hre e he
  rw [rank_accounts_unfold m n nd hnd] at hre
  simp only [Option.some.injEq] at hre
  rw [← hre] at he
  obtain ⟨j, p, hp, rfl⟩ := mem_addRanks _ _ _ he
  have hp2 : p ∈ sortByScoreDesc ((m.zip nd).map (mkPRow get_feature_importance)) :=
    mem_pandasHead _ _ _ hp
  have hp3 : p ∈ (m.zip nd).map (mkPRow get_feature_importance) :=
    (sortByScoreDesc_perm _).mem_iff.mp hp2
  obtain ⟨i, hilen, hpi⟩ := List.getElem_of_mem hp3
  have hizip : i < (m.zip nd).length := by simpa using hilen
  have him : i < m.length := by rw [List.length_zip] at hizip; omega
  have hind : i < nd.length := by rw [List.length_zip] at hizip; omega
  rw [List.getElem_map] at hpi
  have hzipi : (m.zip nd)[i] = (m[i], nd[i]) := List.getElem_zip
  rw [hzipi] at hpi
  subst hpi
  have hmem : nd[i] ∈ nd := List.getElem_mem hind
  have hb := normalize_metrics_mem_bounds m nd hnd _ hmem
  have hport : nd[i].portId = m[i].portId := by
    have h1 := normalize_metrics_portId m nd hnd i hind
    rw [List.getD_eq_getElem nd nrowD hind] at h1
    rw [h1, List.getD_eq_getElem _ _ (by simpa using him), List.getElem_map]
  have hscore : (toRRow j (mkPRow get_feature_importance (m[i], nd[i]))).score =
      scoreOf get_feature_importance nd[i] := rfl
  have hpid : (toRRow j (mkPRow get_feature_importance (m[i], nd[i]))).portId =
      m[i].portId := rfl
  refine ⟨⟨nd[i], hmem, ?_, ?_⟩, ?_, ?_⟩
  · rw [hpid]
    exact hport
  · rw [hscore]
    norm_num [scoreOf, get_feature_importance]
  · rw [hscore]
    unfold scoreOf get_feature_importance
    obtain ⟨⟨a1, a2⟩, ⟨b1, b2⟩, ⟨c1, c2⟩, ⟨d1, d2⟩, ⟨e1, e2⟩⟩ := hb
    nlinarith
  · rw [hscore]
    unfold scoreOf get_feature_importance
    obtain ⟨⟨a1, a2⟩, ⟨b1, b2⟩, ⟨c1, c2⟩, ⟨d1, d2⟩, ⟨e1, e2⟩⟩ := hb
    nlinarith

/-- Witness for the C6 theorem at a concrete one-account table. -/
theorem rank_accounts_score_weighted_witness :
    soloMetrics ≠ [] ∧
    (get_feature_importance = Weights.mk 0.25 0.20 0.20 0.15 0.20 ∧
    get_feature_importance.roi + get_feature_importance.total_pnl +
      get_feature_importance.sharpe_ratio + get_feature_importance.max_drawdown +
      get_feature_importance.win_rate = 1 ∧
    ∃ nd, normalize_metrics soloMetrics = some nd ∧
      ∀ r, rank_accounts soloMetrics 20 = some r → ∀ e, e ∈ r →
        (∃ nrow, nrow ∈ nd ∧ nrow.portId = e.portId ∧ e.score =
          nrow.roi * 0.25 + nrow.total_pnl * 0.20 + nrow.sharpe_ratio * 0.20 +
            nrow.max_drawdown * 0.15 + nrow.win_rate * 0.20) ∧
        0 ≤ e.score ∧ e.score ≤ 1) :=
  ⟨by decide, rank_accounts_score_weighted soloMetrics 20 (by decide)⟩


/-- C9: for every account, `calculate_roi` returns
`100 * sum(realized_profit) / sum(quantity)` over that account's trades when
`sum(quantity)` is nonzero, and `0` when `sum(quantity) == 0` (the spec-side
formulation `roi_spec`). -/
theorem calculate_roi_matches_spec (df : List Trade) (id : ℕ) :
    calculate_roi df id = roi_spec df id := by
  unfold calculate_roi roi_spec
  by_cases h : sumQty df id = 0
  · rw [if_neg (fun hne => hne h), if_pos h]
  · rw [if_pos h, if_neg h]
    ring

/-- C4 counterexample: `calculate_metrics` does not leave its input unchanged:
the `date` column assignment inside `calculate_sharpe_ratio` adds a column to
the caller's trade table. -/
theorem calculate_metrics_adds_date_column :
    (calculate_metrics_input_after exFrame).cols ≠ exFrame.cols := by decide

/-- C4 (amended): `calculate_metrics` mutates its input only by adding a `date`
column (the assignment in `calculate_sharpe_ratio`; rows and other columns are
unchanged, and an existing `date` column is overwritten in place); the ranking
side holds as claimed: `normalize_metrics` and `rank_accounts` do not mutate
the metrics table they are given. -/
theorem engines_input_mutation (d : TradesDF) (m : List MRow) :
    (calculate_metrics_input_after d).rows = d.rows ∧
    (calculate_metrics_input_after d).cols =
      (if "date" ∈ d.cols then d.cols else d.cols ++ ["date"]) ∧
    normalize_metrics_input_after m = m ∧
    rank_accounts_input_after m = m :=
  ⟨rfl, rfl, rfl, rfl⟩

/-- C10: `max_drawdown` is not bounded above by 100: for the account with
successive realized profits `[1, -1.6]` the cumulative product turns negative,
the drawdown minimum falls below -1, and `calculate_mdd` returns 160. -/
theorem calculate_mdd_exceeds_100 :
    calculate_mdd bigDropTrades 3 = some 160 ∧ (100 : ℚ) < 160 := by
  constructor
  · norm_num [calculate_mdd, sortByTimestamp, tradesOf, bigDropTrades, cumprod, cumprodAux,
      runningMax, runningMaxAux, colMin?, List.insertionSort, List.orderedInsert,
      List.filterMap_cons, min_def, abs]
  · norm_num

/-- C8 counterexample: a single-trade account with `realized_profit = -1` has
cumulative product 0, so its only drawdown entry is `0/0` (NaN) and
`calculate_mdd` returns NaN (`none`) — neither `0` nor a value `≥ 0`. -/
theorem calculate_mdd_nan_single_trade :
    tradesOf ruinTrade 7 = [Trade.mk 7 0 1 (-1)] ∧ calculate_mdd ruinTrade 7 = none := by
  constructor
  · decide
  · norm_num [calculate_mdd, sortByTimestamp, tradesOf, ruinTrade, cumprod, cumprodAux,
      runningMax, runningMaxAux, colMin?, List.insertionSort, List.orderedInsert,
      List.filterMap_cons, min_def, abs]

/-- C8 (amended): whenever `calculate_mdd` returns a number that number is
`≥ 0`, and a single-trade account gets `max_drawdown = 0` provided its
realized profit is not `-1` (at `-1` the result is NaN, filled to 0 only later
by `calculate_metrics`). -/
theorem calculate_mdd_nonneg_single_trade (df : List Trade) (id : ℕ) :
    (∀ q, calculate_mdd df id = some q → 0 ≤ q) ∧
    (∀ t, tradesOf df id = [t] → t.realizedProfit ≠ -1 →
      calculate_mdd df id = some 0) := by
  constructor
  · intro q hq
    simp only [calculate_mdd] at hq
    split at hq
    · split at hq
      · simp only [Option.some.injEq] at hq
        rw [← hq]
        positivity
      · cases hq
    · simp only [Option.some.injEq] at hq
      rw [← hq]
  · intro t ht hrp
    have hx : (1 : ℚ) + t.realizedProfit ≠ 0 := by
      intro e
      apply hrp
      linarith
    unfold calculate_mdd
    rw [ht]
    norm_num [sortByTimestamp, List.insertionSort, List.orderedInsert, cumprod, cumprodAux,
      runningMax, runningMaxAux, colMin?, List.filterMap_cons, hx, div_self hx]

/-- Witness for the C8 theorem at a concrete single-trade account. -/
theorem calculate_mdd_nonneg_single_trade_witness :
    tradesOf profitTrade 5 = [Trade.mk 5 0 2 3] ∧
    (Trade.mk 5 0 2 3).realizedProfit ≠ -1 ∧
    calculate_mdd profitTrade 5 = some 0 :=
  ⟨by decide, by norm_num,
    (calculate_mdd_nonneg_single_trade profitTrade 5).2 (Trade.mk 5 0 2 3)
      (by decide) (by norm_num)⟩

theorem listMean_perm (l1 l2 : List ℝ) (h : List.Perm l1 l2) :
    listMean l1 = listMean l2 := by
  unfold listMean
  rw [h.sum_eq, h.length_eq]

theorem sampleVariance_perm (l1 l2 : List ℝ) (h : List.Perm l1 l2) :
    sampleVariance l1 = sampleVariance l2 := by
  unfold sampleVariance
  rw [listMean_perm l1 l2 h, (h.map (fun x => (x - listMean l2) ^ 2)).sum_eq, h.length_eq]

theorem sampleStd_perm (l1 l2 : List ℝ) (h : List.Perm l1 l2) :
    sampleStd l1 = sampleStd l2 := by
  unfold sampleStd
  rw [sampleVariance_perm l1 l2 h]

theorem sampleStd_nonneg (l : List ℝ) : 0 ≤ sampleStd l :=
  Real.sqrt_nonneg _

theorem excessOf_perm (rf : ℝ) (l1 l2 : List ℚ) (h : List.Perm l1 l2) :
    List.Perm (excessOf rf l1) (excessOf rf l2) :=
  h.map _

/-- C7: for every account (and every annual risk-free rate, `0.02` at the
`calculate_metrics` call site), `calculate_sharpe_ratio` agrees with the
spec-side `sharpe_spec`: per-date profit sums grouped by calendar date, `0`
with fewer than 2 distinct dates, otherwise
`sqrt(365) * mean(excess) / std(excess)` with the daily risk-free rate
`(1 + rf)^(1/365) - 1` subtracted and the sample (n-1) standard deviation,
and `0` when that standard deviation is `0`. -/
theorem sharpe_matches_spec (df : List Trade) (rf : ℝ) (id : ℕ) :
    calculate_sharpe_ratio df rf id = sharpe_spec df rf id := by
  simp only [calculate_sharpe_ratio, sharpe_spec]
  have hperm : List.Perm (dailyReturns df id) ((datesOf df id).map (daySum df id)) := by
    unfold dailyReturns sortedDatesOf
    exact (List.perm_insertionSort _ _).map _
  have hlen := hperm.length_eq
  have hm := listMean_perm _ _ (excessOf_perm rf _ _ hperm)
  have hs := sampleStd_perm _ _ (excessOf_perm rf _ _ hperm)
  by_cases hc : 1 < (dailyReturns df id).length
  · have hc2 : ¬ ((List.map (daySum df id) (datesOf df id)).length < 2) := by omega
    rw [if_pos hc, if_neg hc2, hm, hs]
    by_cases hstd : sampleStd (excessOf rf (List.map (daySum df id) (datesOf df id))) = 0
    · rw [if_neg (by rw [hstd]; exact lt_irrefl 0), if_pos hstd]
    · rw [if_pos ((sampleStd_nonneg _).lt_of_ne (Ne.symm hstd)), if_neg hstd]
  · have hc2 : (List.map (daySum df id) (datesOf df id)).length < 2 := by omega
    rw [if_neg hc, if_pos hc2]

theorem groupKeys_nodup (df : List Trade) : (groupKeys df).Nodup := by
  unfold groupKeys
  exact (List.perm_insertionSort _ _).nodup_iff.mpr (uniqueList_nodup _)

theorem mem_groupKeys (df : List Trade) (id : ℕ) :
    id ∈ groupKeys df ↔ id ∈ df.map Trade.portId := by
  unfold groupKeys
  rw [(List.perm_insertionSort _ _).mem_iff, mem_uniqueList]

/-- C1: `calculate_metrics` fails with an error (the source's
`ValueError("No trade data available for analysis")`) on a table with zero
rows; on a nonempty table it returns a table with exactly one row per
distinct `account_id` present in the input (a duplicate-free index whose
membership coincides with the input's account ids), and after the final
`fillna(0)` no metric column holds NaN (every entry is a defined number; the
division guards keep all columns finite, see the header comment). -/
theorem calculate_metrics_shape (df : List Trade) :
    (df = [] → calculate_metrics df =
      Except.error "No trade data available for analysis") ∧
    (df ≠ [] → ∃ out, calculate_metrics df = Except.ok out ∧
      out.index.Nodup ∧
      (∀ id, id ∈ out.index ↔ id ∈ df.map Trade.portId) ∧
      (∀ id, (out.roi id).isSome ∧ (out.total_pnl id).isSome ∧
        (out.sharpe_ratio id).isSome ∧ (out.max_drawdown id).isSome ∧
        (out.win_rate id).isSome ∧ (out.win_positions id).isSome ∧
        (out.total_positions id).isSome)) := by
  constructor
  · intro h
    rw [h]
    rfl
  · intro h
    have hok : calculate_metrics df = Except.ok (metricsFillna (MetricsOut.mk (groupKeys df)
        (fun id => some (calculate_roi df id)) (fun id => some (calculate_pnl df id))
        (fun id => some (calculate_sharpe_ratio df 0.02 id)) (calculate_mdd df)
        (fun id => some (calculate_win_rate df id))
        (fun id => some ((win_positions df id : ℚ)))
        (fun id => some ((total_positions df id : ℚ))))) := by
      unfold calculate_metrics
      rw [if_neg (fun hh => h (List.length_eq_zero.mp hh))]
    refine ⟨_, hok, groupKeys_nodup df, fun id => mem_groupKeys df id, ?_⟩
    intro id
    exact ⟨rfl, rfl, rfl, rfl, rfl, rfl, rfl⟩

/-- Witness for the C1 theorem at a concrete two-account trade table. -/
theorem calculate_metrics_shape_witness :
    pairTrades ≠ [] ∧
    (∃ out, calculate_metrics pairTrades = Except.ok out ∧
      out.index.Nodup ∧
      (∀ id, id ∈ out.index ↔ id ∈ pairTrades.map Trade.portId) ∧
      (∀ id, (out.roi id).isSome ∧ (out.total_pnl id).isSome ∧
        (out.sharpe_ratio id).isSome ∧ (out.max_drawdown id).isSome ∧
        (out.win_rate id).isSome ∧ (out.win_positions id).isSome ∧
        (out.total_positions id).isSome)) :=
  ⟨by decide, (calculate_metrics_shape pairTrades).2 (by decide)⟩

theorem runningMaxAux_cumprodAux_zero (xs : List ℚ) :
    ∀ (m acc : ℚ), (m = 0 → acc = 0) →
      ∀ p ∈ List.zip (cumprodAux acc xs) (runningMaxAux m (cumprodAux acc xs)),
        p.2 = 0 → p.1 = 0 := by
  induction xs with
  | nil =>
    intro m acc _ p hp
    simp [cumprodAux, runningMaxAux] at hp
  | cons x t ih =>
    intro m acc hma p hp h2
    simp only [cumprodAux, runningMaxAux, List.zip_cons_cons, List.mem_cons] at hp
    rcases hp with rfl | hp
    · simp only at h2
      rcases max_choice m (acc * x) with hc | hc
      · rw [hc] at h2
        simp only [hma h2, zero_mul]
      · rw [hc] at h2
        exact h2
    · refine ih (max m (acc * x)) (acc * x) ?_ p hp h2
      intro hm0
      rcases max_choice m (acc * x) with hc | hc
      · rw [hc] at hm0
        rw [hma hm0, zero_mul]
      · rw [hc] at hm0
        exact hm0

/-- In `calculate_mdd`, a zero running maximum forces a zero cumulative
product: the float division behind each drawdown entry is `0/0` (NaN), never
`x/0` with `x ≠ 0` (±inf), so `Option ℚ` with `none` for NaN models it
exactly. -/
theorem runningMax_cumprod_zero (xs : List ℚ) :
    ∀ p ∈ List.zip (cumprod xs) (runningMax (cumprod xs)), p.2 = 0 → p.1 = 0 := by
  cases xs with
  | nil =>
    intro p hp
    simp [cumprod, cumprodAux, runningMax] at hp
  | cons x t =>
    intro p hp h2
    simp only [cumprod, cumprodAux, runningMax, List.zip_cons_cons, List.mem_cons] at hp
    rcases hp with rfl | hp
    · exact h2
    · exact runningMaxAux_cumprodAux_zero t (1 * x) (1 * x) (fun h => h) p hp h2

/-- Witness for the C5 theorem at a concrete one-account table. -/
theorem normalize_metrics_minmax_witness :
    soloMetrics ≠ [] ∧
    (∃ nd, normalize_metrics soloMetrics = some nd ∧ nd.length = soloMetrics.length ∧
      ∀ i, i < soloMetrics.length →
        (nd.getD i nrowD).roi = normEntrySpec (soloMetrics.map MRow.roi) i ∧
        (nd.getD i nrowD).total_pnl = normEntrySpec (soloMetrics.map MRow.total_pnl) i ∧
        (nd.getD i nrowD).sharpe_ratio =
          normEntrySpec (soloMetrics.map MRow.sharpe_ratio) i ∧
        (nd.getD i nrowD).win_rate = normEntrySpec (soloMetrics.map MRow.win_rate) i ∧
        (nd.getD i nrowD).max_drawdown =
          normMddEntrySpec (soloMetrics.map MRow.max_drawdown) i) :=
  ⟨by decide, normalize_metrics_minmax soloMetrics (by decide)⟩
